import Mathlib

/-!
Verification of the flux-core subprocess/channel engine and the job-info
lookup helpers, against the natural-language specification.

Embedding conventions:
* C strings are embedded as `List Char` (NUL-free contents); byte buffers as
  `List Nat` (each element a byte value).
* Fallible C functions returning `-1`/`NULL` with `errno` are embedded as
  `Except Nat α`, the `Nat` being the errno value.
* The single-threaded reactor dispatch is embedded as a fold of a step
  function over an explicit list of readiness events.
-/

set_option maxRecDepth 4000

/-- errno value for invalid argument. -/
def EINVAL : Nat := 22

/-- errno value for protocol error. -/
def EPROTO : Nat := 71

/-! ## job-info utilities (src/src/modules/job-info/util.c) -/

/-- Embedding of `get_next_eventlog_entry` from src/src/modules/job-info/util.c.
The C function takes a cursor `*pp` into a NUL-terminated string; it returns
`false` when `strchr (*pp, '\n')` finds no newline, otherwise it sets
`*tok = *pp`, `*toklen = term - *pp + 1` (the prefix through the first
newline) and advances `*pp = term + 1`.  Here the remaining input is the
list of characters at the cursor, and a successful call returns the token
together with the advanced remainder. -/
def get_next_eventlog_entry : List Char → Option (List Char × List Char)
  | [] => none
  | c :: rest =>
      if c = '\n' then some ([c], rest)
      else
        match get_next_eventlog_entry rest with
        | none => none
        | some (tok, rest') => some (c :: tok, rest')

/-- A successful `get_next_eventlog_entry` returns a nonempty token, so the
remainder is strictly shorter than the input. -/
theorem get_next_eventlog_entry_shorter :
    ∀ (p tok rest : List Char),
      get_next_eventlog_entry p = some (tok, rest) → rest.length < p.length := by
  intro p
  induction p with
  | nil => intro tok rest h; simp [get_next_eventlog_entry] at h
  | cons c cs ih =>
      intro tok rest h
      by_cases hc : c = '\n'
      · simp [get_next_eventlog_entry, hc] at h
        simp [← h.2]
      · simp only [get_next_eventlog_entry, if_neg hc] at h
        cases hrec : get_next_eventlog_entry cs with
        | none => rw [hrec] at h; simp at h
        | some pr =>
            obtain ⟨tok', rest'⟩ := pr
            rw [hrec] at h
            simp at h
            have := ih tok' rest' hrec
            simp [← h.2]
            omega

/-- Repeated application of `get_next_eventlog_entry`, as done by the
eventlog-scanning loops in job-info: collects the newline-terminated tokens
in order and stops at the first `false` return, leaving the unconsumed
suffix. -/
def eventlog_split (p : List Char) : List (List Char) × List Char :=
  match h : get_next_eventlog_entry p with
  | none => ([], p)
  | some (tok, rest) =>
      let r := eventlog_split rest
      (tok :: r.1, r.2)
termination_by p.length
decreasing_by
  exact get_next_eventlog_entry_shorter p tok rest h

/-- Token concatenated with the advanced cursor reproduces the input. -/
theorem get_next_eventlog_entry_append :
    ∀ (p tok rest : List Char),
      get_next_eventlog_entry p = some (tok, rest) → tok ++ rest = p := by
  intro p
  induction p with
  | nil => intro tok rest h; simp [get_next_eventlog_entry] at h
  | cons c cs ih =>
      intro tok rest h
      by_cases hc : c = '\n'
      · simp [get_next_eventlog_entry, hc] at h
        simp [← h.1, ← h.2, hc]
      · simp only [get_next_eventlog_entry, if_neg hc] at h
        cases hrec : get_next_eventlog_entry cs with
        | none => rw [hrec] at h; simp at h
        | some pr =>
            obtain ⟨tok', rest'⟩ := pr
            rw [hrec] at h
            simp at h
            have := ih tok' rest' hrec
            rw [← h.1, ← h.2]
            simpa using this

/-- The returned token ends with the newline and contains no earlier
newline: it is exactly the prefix through the first `'\n'` of the input. -/
theorem get_next_eventlog_entry_token :
    ∀ (p tok rest : List Char),
      get_next_eventlog_entry p = some (tok, rest) →
        tok.getLast? = some '\n' ∧ '\n' ∉ tok.dropLast := by
  intro p
  induction p with
  | nil => intro tok rest h; simp [get_next_eventlog_entry] at h
  | cons c cs ih =>
      intro tok rest h
      by_cases hc : c = '\n'
      · simp [get_next_eventlog_entry, hc] at h
        simp [← h.1, hc]
      · simp only [get_next_eventlog_entry, if_neg hc] at h
        cases hrec : get_next_eventlog_entry cs with
        | none => rw [hrec] at h; simp at h
        | some pr =>
            obtain ⟨tok', rest'⟩ := pr
            rw [hrec] at h
            simp at h
            obtain ⟨h1, h2⟩ := ih tok' rest' hrec
            have htok' : tok' ≠ [] := by
              intro hnil; rw [hnil] at h1; simp at h1
            constructor
            · rw [← h.1, List.getLast?_cons, h1]
              cases tok' with
              | nil => exact absurd rfl htok'
              | cons a as => simp [List.getLast?_cons]
            · rw [← h.1]
              cases tok' with
              | nil => exact absurd rfl htok'
              | cons a as =>
                  simp only [List.dropLast_cons_of_ne_nil (by simp : a :: as ≠ [])]
                  intro hmem
                  rcases List.mem_cons.mp hmem with h0 | h0
                  · exact hc h0.symm
                  · exact h2 h0

/-- `get_next_eventlog_entry` succeeds exactly when a newline remains. -/
theorem get_next_eventlog_entry_isSome :
    ∀ (p : List Char), (get_next_eventlog_entry p).isSome = true ↔ '\n' ∈ p := by
  intro p
  induction p with
  | nil => simp [get_next_eventlog_entry]
  | cons c cs ih =>
      by_cases hc : c = '\n'
      · simp [get_next_eventlog_entry, hc]
      · simp only [get_next_eventlog_entry, if_neg hc]
        cases hrec : get_next_eventlog_entry cs with
        | none =>
            rw [hrec] at ih
            simp at ih
            simp [List.mem_cons, ih]
            intro h0; exact hc h0.symm
        | some pr =>
            obtain ⟨tok', rest'⟩ := pr
            rw [hrec] at ih
            simp at ih
            simp [List.mem_cons, ih]

theorem eventlog_split_none (p : List Char) (h : get_next_eventlog_entry p = none) :
    eventlog_split p = ([], p) := by
  unfold eventlog_split
  split
  · rfl
  · rename_i tok rest heq
    rw [h] at heq
    simp at heq

theorem eventlog_split_some (p tok rest : List Char)
    (h : get_next_eventlog_entry p = some (tok, rest)) :
    eventlog_split p = (tok :: (eventlog_split rest).1, (eventlog_split rest).2) := by
  conv_lhs => unfold eventlog_split
  split
  · rename_i heq
    rw [h] at heq
    simp at heq
  · rename_i tok' rest' heq
    rw [h] at heq
    simp only [Option.some_inj, Prod.mk.injEq] at heq
    obtain ⟨h1, h2⟩ := heq
    subst h1
    subst h2
    rfl

theorem eventlog_split_spec :
    ∀ (n : Nat) (p : List Char), p.length ≤ n →
      (eventlog_split p).1.flatten ++ (eventlog_split p).2 = p
      ∧ '\n' ∉ (eventlog_split p).2
      ∧ ∀ t ∈ (eventlog_split p).1, t.getLast? = some '\n' ∧ '\n' ∉ t.dropLast := by
  intro n
  induction n with
  | zero =>
      intro p hp
      have hp0 : p = [] := List.length_eq_zero.mp (Nat.le_zero.mp hp)
      subst hp0
      rw [eventlog_split_none [] (by simp [get_next_eventlog_entry])]
      simp
  | succ n ih =>
      intro p hp
      cases h : get_next_eventlog_entry p with
      | none =>
          rw [eventlog_split_none p h]
          refine ⟨by simp, ?_, by simp⟩
          intro hmem
          have := (get_next_eventlog_entry_isSome p).mpr hmem
          rw [h] at this
          simp at this
      | some pr =>
          obtain ⟨tok, rest⟩ := pr
          rw [eventlog_split_some p tok rest h]
          have hlt := get_next_eventlog_entry_shorter p tok rest h
          have hrest : rest.length ≤ n := by omega
          obtain ⟨ih1, ih2, ih3⟩ := ih rest hrest
          have happ := get_next_eventlog_entry_append p tok rest h
          have htok := get_next_eventlog_entry_token p tok rest h
          refine ⟨?_, ih2, ?_⟩
          · simp only [List.flatten_cons]
            rw [List.append_assoc, ih1, happ]
          · intro t ht
            rcases List.mem_cons.mp ht with h0 | h0
            · subst h0; exact htok
            · exact ih3 t h0

/-- C10: `get_next_eventlog_entry` returns true iff the remaining input
contains a newline; on success the token is exactly the prefix of the
remaining input up to and including the first newline and the cursor
advances just past it; repeated calls (`eventlog_split`) partition the
input into its newline-terminated lines and leave the unterminated
trailing suffix unconsumed. -/
theorem get_next_eventlog_entry_correct (p : List Char) :
    ((get_next_eventlog_entry p).isSome = true ↔ '\n' ∈ p)
    ∧ (∀ tok rest, get_next_eventlog_entry p = some (tok, rest) →
        tok ++ rest = p ∧ tok.getLast? = some '\n' ∧ '\n' ∉ tok.dropLast)
    ∧ (eventlog_split p).1.flatten ++ (eventlog_split p).2 = p
    ∧ '\n' ∉ (eventlog_split p).2
    ∧ (∀ t ∈ (eventlog_split p).1, t.getLast? = some '\n' ∧ '\n' ∉ t.dropLast) := by
  obtain ⟨s1, s2, s3⟩ := eventlog_split_spec p.length p (le_refl _)
  refine ⟨get_next_eventlog_entry_isSome p, ?_, s1, s2, s3⟩
  intro tok rest h
  exact ⟨get_next_eventlog_entry_append p tok rest h,
         get_next_eventlog_entry_token p tok rest h⟩

/-- Witness for C10 at the concrete input "ab\ncd\ne". -/
theorem get_next_eventlog_entry_correct_witness :
    ['a', 'b', '\n'] ++ ['c', 'd', '\n', 'e'] = ['a', 'b', '\n', 'c', 'd', '\n', 'e']
    ∧ ['a', 'b', '\n'].getLast? = some '\n'
    ∧ '\n' ∉ ['a', 'b', '\n'].dropLast :=
  (get_next_eventlog_entry_correct ['a', 'b', '\n', 'c', 'd', '\n', 'e']).2.1
    ['a', 'b', '\n'] ['c', 'd', '\n', 'e'] (by decide)

/-! ## job-info lookup (src/unnamed/part_000, lookup.c) -/

/-- Minimal jansson value model: just enough structure for the request
validation done by `lookup_cb` (`json_is_array`, `json_is_string`,
`json_array_foreach`, string comparison). -/
inductive Json where
  | null
  | jbool (b : Bool)
  | jint (n : Int)
  | jstr (s : String)
  | jarr (elts : List Json)
  | jobj (fields : List (String × Json))

/-- `json_is_array`. -/
def json_is_array : Json → Bool
  | .jarr _ => true
  | _ => false

/-- `json_is_string`. -/
def json_is_string : Json → Bool
  | .jstr _ => true
  | _ => false

/-- Modelled from the spec: the flag constants `FLUX_JOB_LOOKUP_JSON_DECODE`
and `FLUX_JOB_LOOKUP_CURRENT` are declared in libjob headers that are not
among the shown sources; `lookup_cb` only uses their bitwise union as
`valid_flags`, so only their being distinct single bits matters. -/
def FLUX_JOB_LOOKUP_JSON_DECODE : Nat := 1

/-- Modelled from the spec: see `FLUX_JOB_LOOKUP_JSON_DECODE`. -/
def FLUX_JOB_LOOKUP_CURRENT : Nat := 2

/-- `valid_flags` as computed in `lookup_cb`. -/
def valid_flags : Nat := FLUX_JOB_LOOKUP_JSON_DECODE ||| FLUX_JOB_LOOKUP_CURRENT

/-- The 32-bit complement mask `~valid_flags` used in the check
`flags & ~valid_flags`; `flags` is a C `int`, embedded as its 32-bit
pattern, so the complement is XOR with `2^32 - 1`. -/
def invalid_flags_mask : Nat := (2 ^ 32 - 1) ^^^ valid_flags

/-- The fields of a decoded `job-info.lookup` request, i.e. what
`flux_request_unpack (msg, NULL, "{s:I s:o s:i}", ...)` extracts, plus the
two facts about the message's credentials that `check_allow` consults
(`flux_msg_authorize` success, `eventlog_allow_lru` hit). -/
structure LookupRequest where
  id : Int
  keys : Json
  flags : Nat
  owner : Bool
  lru_allowed : Bool

/-- `struct lookup_ctx` (the fields relevant to the embedded logic:
message refcounting and the future are external resources). -/
structure lookup_ctx where
  id : Int
  keys : Json
  lookup_eventlog : Bool
  flags : Nat
  allow : Bool

/-- Reply sent by `lookup_cb`: an error response via
`flux_respond_error`, or no immediate reply with the context enqueued on
`ctx->lookups` (the RPC response comes later from the continuation). -/
inductive LookupReply where
  | error_response (errno : Nat)
  | enqueued
deriving DecidableEq

/-- `lookup_ctx_create`: copies id, keys and flags; `lookup_eventlog` and
`allow` start false (calloc zero-fill). -/
def lookup_ctx_create (req : LookupRequest) : lookup_ctx :=
  { id := req.id
    keys := req.keys
    lookup_eventlog := false
    flags := req.flags
    allow := false }

/-- `check_allow`: sets `allow` when the message is from the instance owner
or the LRU cache records a previously verified access. -/
def check_allow (l : lookup_ctx) (owner lru_allowed : Bool) : lookup_ctx :=
  if owner then { l with allow := true }
  else if lru_allowed then { l with allow := true }
  else l

/-- The `json_array_foreach` scan in `check_to_lookup_eventlog` looking for
a key equal to `"eventlog"`. -/
def keys_contain_eventlog : Json → Bool
  | .jarr elts =>
      elts.any (fun k =>
        match k with
        | .jstr s => s == "eventlog"
        | _ => false)
  | _ => false

/-- `check_to_lookup_eventlog`: the eventlog is added to the lookup list
when needed for an allow check or a current-value lookup, unless already
requested. -/
def check_to_lookup_eventlog (l : lookup_ctx) : lookup_ctx :=
  if !l.allow || l.flags &&& FLUX_JOB_LOOKUP_CURRENT ≠ 0 then
    if keys_contain_eventlog l.keys then l
    else { l with lookup_eventlog := true }
  else l

/-- The element-wise validation loop of `lookup_cb`: every member of the
keys array is a string (`false` also when `keys` is not an array, in which
case `lookup_cb` has already taken the error path). -/
def json_array_strings_ok : Json → Bool
  | .jarr elts => elts.all json_is_string
  | _ => false

/-- Embedding of `lookup_cb` from lookup.c, after a successful
`flux_request_unpack`: flag validation, keys validation, context creation,
allow/eventlog bookkeeping, and enqueue on `ctx->lookups`.  The external
KVS lookups started by `lookup_keys` and the allocation failure paths are
modelled as succeeding. -/
def lookup_cb (req : LookupRequest) (lookups : List lookup_ctx) :
    LookupReply × List lookup_ctx :=
  if req.flags &&& invalid_flags_mask ≠ 0 then
    (.error_response EPROTO, lookups)
  else if json_is_array req.keys = false then
    (.error_response EPROTO, lookups)
  else if json_array_strings_ok req.keys = false then
    (.error_response EPROTO, lookups)
  else
    let l := check_to_lookup_eventlog
      (check_allow (lookup_ctx_create req) req.owner req.lru_allowed)
    (.enqueued, lookups ++ [l])

/-- C9: a lookup request whose flags carry any bit outside
{FLUX_JOB_LOOKUP_JSON_DECODE, FLUX_JOB_LOOKUP_CURRENT}, or whose keys
field is not an array of strings, is rejected synchronously with EPROTO
and no lookup context is enqueued: the pending-lookup list is returned
unchanged. -/
theorem lookup_cb_rejects_invalid (req : LookupRequest) (lookups : List lookup_ctx)
    (h : req.flags &&& invalid_flags_mask ≠ 0 ∨ json_array_strings_ok req.keys = false) :
    lookup_cb req lookups = (.error_response EPROTO, lookups) := by
  unfold lookup_cb
  split
  · rfl
  · split
    · rfl
    · split
      · rfl
      · rename_i hf ha hs
        exfalso
        rcases h with h | h
        · exact hf h
        · exact hs h

/-- Witness for C9: flags value 4 (a bit outside the valid set) with a
well-formed keys array is rejected with EPROTO and leaves the
pending-lookup list empty. -/
theorem lookup_cb_rejects_invalid_witness :
    lookup_cb ⟨42, .jarr [.jstr "jobspec"], 4, true, false⟩ [] =
      (.error_response EPROTO, []) :=
  lookup_cb_rejects_invalid ⟨42, .jarr [.jstr "jobspec"], 4, true, false⟩ []
    (Or.inl (by decide))

/-! ## Subprocess engine (libsubprocess)

The implementation of the subprocess/channel engine (command descriptor,
local executor, stream multiplexer, controller) is not among the shown
sources; only its unit test src/src/common/libsubprocess/test/channel.c
is.  Per the specification it is modelled here from spec sections 3-7,
with the test's observable assertions fixing the points where the spec is
ambiguous (notably: `flux_cmd_setopt` accepts a non-numeric `*_BUFSIZE`
value and the EINVAL is raised by `flux_local_exec`, channel.c:443-455). -/

/-- Modelled from the spec (section 3, Stream state): stream direction. -/
inductive Direction where
  | OUT
  | IN
  | BIDI
deriving DecidableEq

/-- Modelled from the spec (section 4.3): subprocess controller states. -/
inductive flux_subprocess_state where
  | INIT
  | RUNNING
  | EXITED
  | FAILED
deriving DecidableEq

/-- Modelled from the spec (section 3, Stream state): per-stream buffered
state. `buf` holds unread child output, `inQueue` holds queued outbound
bytes, `eofSeen` is the read-closed/EOF flag, `writeClosed` the parent
half-close flag. -/
structure StreamState where
  name : String
  direction : Direction
  buf : List Nat
  inQueue : List Nat
  eofSeen : Bool
  writeClosed : Bool
deriving DecidableEq

/-- Modelled from the spec (section 3, Command Descriptor): `flux_cmd_t`
with argv, environment, named channels and per-stream options. -/
structure flux_cmd_t where
  argv : List String
  env : List (String × String)
  channels : List String
  opts : List (String × String)
deriving DecidableEq

/-- Modelled from the spec (section 3, Subprocess instance): the
controller returned by a successful spawn, owning the stream states and
the parent-side pipe fds. -/
structure flux_subprocess_t where
  state : flux_subprocess_state
  streams : List StreamState
  fds : List Nat
  completions : Nat
deriving DecidableEq

/-- Modelled from the spec (section 4.1): `flux_cmd_create` from argv and
an optional explicit environment. -/
def flux_cmd_create (argv : List String) (env : List (String × String)) : flux_cmd_t :=
  { argv := argv, env := env, channels := [], opts := [] }

/-- Modelled from the spec (section 4.1): `flux_cmd_add_channel` fails
with EINVAL if the name duplicates a standard stream name or an existing
channel. -/
def flux_cmd_add_channel (cmd : flux_cmd_t) (name : String) : Except Nat flux_cmd_t :=
  if name == "stdin" || name == "stdout" || name == "stderr"
      || cmd.channels.contains name then
    .error EINVAL
  else
    .ok { cmd with channels := cmd.channels ++ [name] }

/-- Modelled from the spec (sections 6 and 8): parsing of a `*_BUFSIZE`
option value as a positive integer; any non-numeric value (e.g. "ABCD")
fails. -/
def parse_positive_int (s : String) : Option Nat :=
  let cs := s.toList
  if !cs.isEmpty && cs.all Char.isDigit then
    let n := cs.foldl (fun acc c => acc * 10 + (c.toNat - 48)) 0
    if n > 0 then some n else none
  else
    none

/-- Modelled from the spec: `flux_cmd_setopt` stores the key/value pair in
the descriptor's option table (replacing any previous binding) and
succeeds.  Section 6 and the test test_bufsize_error (channel.c:443-455)
fix that a non-numeric `*_BUFSIZE` value is accepted here and only
rejected by `flux_local_exec`; the return value 0 is the C success code. -/
def flux_cmd_setopt (cmd : flux_cmd_t) (key value : String) : Int × flux_cmd_t :=
  (0, { cmd with opts := cmd.opts.filter (fun kv => kv.1 != key) ++ [(key, value)] })

/-- The stream names owned by a spawned controller: the three standard
streams plus every named channel (spec section 3). -/
def cmd_stream_names (cmd : flux_cmd_t) : List String :=
  ["stdin", "stdout", "stderr"] ++ cmd.channels

/-- Recognized option keys (spec section 6): `<stream>_BUFSIZE` for a
stream or channel of this command. -/
def is_bufsize_key (cmd : flux_cmd_t) (key : String) : Bool :=
  (cmd_stream_names cmd).any (fun s => key == s ++ "_BUFSIZE")

/-- Modelled from the spec (sections 4.2 and 6): option validation done by
the local executor: every stored option must be a recognized `*_BUFSIZE`
key whose value parses as a positive integer. -/
def cmd_opts_valid (cmd : flux_cmd_t) : Bool :=
  cmd.opts.all (fun kv => is_bufsize_key cmd kv.1 && (parse_positive_int kv.2).isSome)

/-! ### File-descriptor ledger

The parent process's table of open file descriptors, embedded as the list
of open fd numbers; `fdcount` is what the test's `fdcount()` helper
measures (channel.c:36-45). -/

/-- Number of open descriptors (channel.c `fdcount`). -/
def fdcount (t : List Nat) : Nat := t.length

/-- A descriptor number not currently open (the kernel returns an unused
number; the choice max+1 is immaterial). -/
def fresh_fd (t : List Nat) : Nat := t.foldr (fun a b => max a b) 0 + 1

/-- Open `n` fresh descriptors, returning them newest-last together with
the grown table. -/
def alloc_fds : Nat → List Nat → List Nat × List Nat
  | 0, t => ([], t)
  | n + 1, t =>
      let fd := fresh_fd t
      let r := alloc_fds n (fd :: t)
      (fd :: r.1, r.2)

/-- Close each descriptor in `fds` exactly once (spec section 3:
"destroying the Controller must close every owned fd exactly once"). -/
def fd_close_all (fds t : List Nat) : List Nat :=
  fds.foldl (fun acc fd => acc.erase fd) t

/-- Modelled from the spec (sections 4.2 and 7): `flux_local_exec`.
Option validation happens before any resource is created; on failure the
call returns EINVAL, no controller, and the fd table unchanged.  On
success one parent-side descriptor per stream is opened, stdin is IN,
stdout/stderr are OUT, every named channel is BIDI, and the controller is
returned in state RUNNING with empty stream buffers and no flags set. -/
def flux_local_exec (cmd : flux_cmd_t) (t : List Nat) :
    Except Nat flux_subprocess_t × List Nat :=
  if cmd_opts_valid cmd = false then
    (.error EINVAL, t)
  else
    let r := alloc_fds (cmd_stream_names cmd).length t
    (.ok
      { state := .RUNNING
        streams :=
          [{ name := "stdin", direction := .IN, buf := [], inQueue := [],
             eofSeen := false, writeClosed := false },
           { name := "stdout", direction := .OUT, buf := [], inQueue := [],
             eofSeen := false, writeClosed := false },
           { name := "stderr", direction := .OUT, buf := [], inQueue := [],
             eofSeen := false, writeClosed := false }]
          ++ cmd.channels.map (fun c =>
              { name := c, direction := .BIDI, buf := [], inQueue := [],
                eofSeen := false, writeClosed := false })
        fds := r.1
        completions := 0 }, r.2)

/-- Modelled from the spec (section 3): `flux_subprocess_destroy` closes
every owned descriptor exactly once. -/
def flux_subprocess_destroy (p : flux_subprocess_t) (t : List Nat) : List Nat :=
  fd_close_all p.fds t

theorem lt_fresh_fd : ∀ (t : List Nat) (x : Nat), x ∈ t → x < fresh_fd t := by
  intro t
  induction t with
  | nil => simp
  | cons a l ih =>
      intro x hx
      unfold fresh_fd at ih ⊢
      simp only [List.foldr_cons]
      rcases List.mem_cons.mp hx with h0 | h0
      · subst h0
        have := Nat.le_max_left x (l.foldr (fun a b => max a b) 0)
        omega
      · have h1 := ih x h0
        have h2 := Nat.le_max_right a (l.foldr (fun a b => max a b) 0)
        omega

theorem alloc_fds_spec : ∀ (n : Nat) (t : List Nat),
    (alloc_fds n t).2 = (alloc_fds n t).1.reverse ++ t
    ∧ (alloc_fds n t).1.Nodup
    ∧ ∀ x ∈ (alloc_fds n t).1, x ∉ t := by
  intro n
  induction n with
  | zero => intro t; simp [alloc_fds]
  | succ n ih =>
      intro t
      obtain ⟨ih1, ih2, ih3⟩ := ih (fresh_fd t :: t)
      simp only [alloc_fds]
      refine ⟨?_, ?_, ?_⟩
      · rw [ih1]
        simp
      · rw [List.nodup_cons]
        exact ⟨fun hmem => (ih3 _ hmem) (List.mem_cons_self _ _), ih2⟩
      · intro x hx
        rcases List.mem_cons.mp hx with h0 | h0
        · subst h0
          intro hc
          exact absurd (lt_fresh_fd t _ hc) (by omega)
        · intro hc
          exact (ih3 x h0) (List.mem_cons_of_mem _ hc)

theorem fd_close_all_alloc : ∀ (new t : List Nat), new.Nodup →
    fd_close_all new (new.reverse ++ t) = t := by
  intro new
  induction new with
  | nil => intro t _; simp [fd_close_all]
  | cons a rest ih =>
      intro t h
      rw [List.nodup_cons] at h
      have hnot : a ∉ rest.reverse := by simpa using h.1
      simp only [fd_close_all, List.foldl_cons, List.reverse_cons]
      rw [List.append_assoc, List.erase_append_right _ hnot]
      simp only [List.singleton_append, List.erase_cons_head]
      show fd_close_all rest (rest.reverse ++ t) = t
      exact ih t h.2

theorem cmd_opts_invalid_of_bad_bufsize (cmd : flux_cmd_t) (k v : String)
    (hmem : (k, v) ∈ cmd.opts) (hv : parse_positive_int v = none) :
    cmd_opts_valid cmd = false := by
  unfold cmd_opts_valid
  by_contra hne
  have hall : cmd.opts.all
      (fun kv => is_bufsize_key cmd kv.1 && (parse_positive_int kv.2).isSome) = true := by
    rcases Bool.eq_false_or_eq_true
        (cmd.opts.all
          (fun kv => is_bufsize_key cmd kv.1 && (parse_positive_int kv.2).isSome)) with
      h | h
    · exact h
    · exact absurd h hne
  have := List.all_eq_true.mp hall (k, v) hmem
  simp [hv] at this

theorem flux_local_exec_einval_of_invalid (cmd : flux_cmd_t) (t : List Nat)
    (h : cmd_opts_valid cmd = false) :
    flux_local_exec cmd t = (.error EINVAL, t) := by
  unfold flux_local_exec
  rw [if_pos h]

/-- C2: spawning a command descriptor that carries a `*_BUFSIZE` option
whose value is not a positive integer fails with EINVAL, returns no
controller, and leaves the fd table unchanged. -/
theorem flux_local_exec_rejects_bad_bufsize (cmd : flux_cmd_t) (t : List Nat)
    (k v : String) (hmem : (k, v) ∈ cmd.opts) (hk : is_bufsize_key cmd k = true)
    (hv : parse_positive_int v = none) :
    flux_local_exec cmd t = (.error EINVAL, t) :=
  flux_local_exec_einval_of_invalid cmd t (cmd_opts_invalid_of_bad_bufsize cmd k v hmem hv)

/-- The command descriptor built by test_bufsize_error before the bad
option is set: argv /bin/true with channel TEST_CHANNEL. -/
def cmd_true_test_channel : flux_cmd_t :=
  match flux_cmd_add_channel (flux_cmd_create ["/bin/true"] []) "TEST_CHANNEL" with
  | .ok c => c
  | .error _ => flux_cmd_create ["/bin/true"] []

/-- The descriptor of test_bufsize_error after
`flux_cmd_setopt (cmd, "TEST_CHANNEL_BUFSIZE", "ABCD")`. -/
def cmd_bufsize_error_example : flux_cmd_t :=
  (flux_cmd_setopt cmd_true_test_channel "TEST_CHANNEL_BUFSIZE" "ABCD").2

/-- Witness for C2 at the input of test_bufsize_error (channel.c:432-458):
only stdin/stdout/stderr open before the spawn. -/
theorem flux_local_exec_rejects_bad_bufsize_witness :
    flux_local_exec cmd_bufsize_error_example [0, 1, 2] = (.error EINVAL, [0, 1, 2]) :=
  flux_local_exec_rejects_bad_bufsize cmd_bufsize_error_example [0, 1, 2]
    "TEST_CHANNEL_BUFSIZE" "ABCD" (by decide) (by decide) (by decide)

/-- Counterexample to C3 as stated: at the concrete input of
test_bufsize_error (channel.c:443-444), `flux_cmd_setopt` with key
TEST_CHANNEL_BUFSIZE and the non-numeric value "ABCD" returns 0
(success), not an InvalidArgument error, exactly as the test requires. -/
theorem flux_cmd_setopt_accepts_bad_bufsize :
    parse_positive_int "ABCD" = none
    ∧ (flux_cmd_setopt cmd_true_test_channel "TEST_CHANNEL_BUFSIZE" "ABCD").1 = 0 :=
  ⟨by decide, rfl⟩

/-- C3 (amended): `flux_cmd_setopt` accepts and stores a `*_BUFSIZE`
option whose value does not parse as a positive integer; the
InvalidArgument error is deferred to spawn time, where `flux_local_exec`
on the resulting descriptor fails with EINVAL. -/
theorem flux_cmd_setopt_bufsize_deferred (cmd : flux_cmd_t) (k v : String)
    (t : List Nat) (hv : parse_positive_int v = none) :
    (flux_cmd_setopt cmd k v).1 = 0
    ∧ flux_local_exec (flux_cmd_setopt cmd k v).2 t = (.error EINVAL, t) := by
  refine ⟨rfl, ?_⟩
  apply flux_local_exec_einval_of_invalid
  apply cmd_opts_invalid_of_bad_bufsize _ k v _ hv
  exact List.mem_append_right _ (by simp)

/-- Witness for the amended C3 at the test_bufsize_error input. -/
theorem flux_cmd_setopt_bufsize_deferred_witness :
    (flux_cmd_setopt cmd_true_test_channel "TEST_CHANNEL_BUFSIZE" "ABCD").1 = 0
    ∧ flux_local_exec (flux_cmd_setopt cmd_true_test_channel "TEST_CHANNEL_BUFSIZE" "ABCD").2
        [0, 1, 2] = (.error EINVAL, [0, 1, 2]) :=
  flux_cmd_setopt_bufsize_deferred cmd_true_test_channel "TEST_CHANNEL_BUFSIZE" "ABCD"
    [0, 1, 2] (by decide)

/-- The fd table after a spawn attempt followed by destruction of the
controller (when one was returned): the scenario measured by the test's
`fdcount()` bracketing (channel.c:460-494). -/
def exec_then_destroy (cmd : flux_cmd_t) (t : List Nat) : List Nat :=
  match flux_local_exec cmd t with
  | (.ok p, t') => flux_subprocess_destroy p t'
  | (.error _, t') => t'

/-- C8: for every command and initial fd table, the number of open file
descriptors after the spawn and the destruction of the controller equals
the number open before the spawn, on the success path and on the failed
spawn path alike; indeed the fd table itself is restored exactly. -/
theorem exec_then_destroy_no_fd_leak (cmd : flux_cmd_t) (t : List Nat) :
    fdcount (exec_then_destroy cmd t) = fdcount t ∧ exec_then_destroy cmd t = t := by
  have htab : exec_then_destroy cmd t = t := by
    unfold exec_then_destroy flux_local_exec
    by_cases h : cmd_opts_valid cmd = false
    · rw [if_pos h]
    · rw [if_neg h]
      obtain ⟨h1, h2, _⟩ := alloc_fds_spec (cmd_stream_names cmd).length t
      show flux_subprocess_destroy _ _ = t
      unfold flux_subprocess_destroy
      show fd_close_all (alloc_fds (cmd_stream_names cmd).length t).1
        (alloc_fds (cmd_stream_names cmd).length t).2 = t
      rw [h1]
      exact fd_close_all_alloc _ t h2
  exact ⟨by rw [htab], htab⟩

/-! ### Stream multiplexer operations (spec section 4.4) -/

/-- Stream lookup by name on a controller. -/
def find_stream (p : flux_subprocess_t) (stream : String) : Option StreamState :=
  p.streams.find? (fun s => s.name == stream)

/-- Replace the named stream's state, leaving every other stream and the
rest of the controller unchanged. -/
def update_stream (p : flux_subprocess_t) (stream : String)
    (f : StreamState → StreamState) : flux_subprocess_t :=
  { p with streams := p.streams.map (fun s => if s.name == stream then f s else s) }

/-- Modelled from the spec (section 4.4): `flux_subprocess_read` returns
up to `len` bytes (all buffered bytes when `len` is negative) from the
stream's buffer, removing them; an empty result — not an error — when the
buffer is drained; EINVAL on an unknown stream or an IN-only stream. -/
def flux_subprocess_read (p : flux_subprocess_t) (stream : String) (len : Int) :
    Except Nat (List Nat × flux_subprocess_t) :=
  match find_stream p stream with
  | none => .error EINVAL
  | some s =>
      if s.direction = .IN then .error EINVAL
      else
        let bytes := if len < 0 then s.buf else s.buf.take len.toNat
        .ok (bytes,
          update_stream p stream (fun st => { st with buf := st.buf.drop bytes.length }))

/-- The line-reassembly split: the longest newline-terminated prefix of
the buffer together with the trailing remainder (spec section 4.4,
read_line: "the longest complete line (including its terminator) buffered
so far, leaving any trailing partial line for a later call"). -/
def line_split : List Nat → List Nat × List Nat
  | [] => ([], [])
  | c :: rest =>
      let r := line_split rest
      if r.1.isEmpty then
        if c = 10 then ([c], rest) else ([], c :: rest)
      else (c :: r.1, r.2)

/-- Modelled from the spec (section 4.4): `flux_subprocess_read_line`
consumes and returns the longest complete line buffered so far, leaving a
trailing partial line in place; an empty result when no complete line is
buffered. -/
def flux_subprocess_read_line (p : flux_subprocess_t) (stream : String) :
    Except Nat (List Nat × flux_subprocess_t) :=
  match find_stream p stream with
  | none => .error EINVAL
  | some s =>
      if s.direction = .IN then .error EINVAL
      else
        .ok ((line_split s.buf).1,
          update_stream p stream (fun st => { st with buf := (line_split s.buf).2 }))

/-- Modelled from the spec (section 4.4): `flux_subprocess_write` appends
to the child-bound queue of an IN/BIDI stream and accepts every byte;
EINVAL on an unknown stream, an OUT-only stream, or after close. -/
def flux_subprocess_write (p : flux_subprocess_t) (stream : String) (data : List Nat) :
    Except Nat (Nat × flux_subprocess_t) :=
  match find_stream p stream with
  | none => .error EINVAL
  | some s =>
      if s.direction = .OUT then .error EINVAL
      else if s.writeClosed then .error EINVAL
      else
        .ok (data.length,
          update_stream p stream (fun st => { st with inQueue := st.inQueue ++ data }))

/-- Modelled from the spec (section 4.4): `flux_subprocess_close` marks
the stream write-closed; idempotent. -/
def flux_subprocess_close (p : flux_subprocess_t) (stream : String) :
    Except Nat flux_subprocess_t :=
  match find_stream p stream with
  | none => .error EINVAL
  | some _ => .ok (update_stream p stream (fun st => { st with writeClosed := true }))

/-- Modelled from the spec (section 4.4): `flux_subprocess_read_stream_closed`
reports whether EOF has been observed on the read side. -/
def flux_subprocess_read_stream_closed (p : flux_subprocess_t) (stream : String) :
    Except Nat Bool :=
  match find_stream p stream with
  | none => .error EINVAL
  | some s => .ok s.eofSeen

theorem line_split_append : ∀ (b : List Nat),
    (line_split b).1 ++ (line_split b).2 = b := by
  intro b
  induction b with
  | nil => simp [line_split]
  | cons c rest ih =>
      simp only [line_split]
      by_cases he : (line_split rest).1.isEmpty = true
      · by_cases hc : c = 10 <;> simp [he, hc]
      · simp only [he]
        simp only [Bool.false_eq_true, if_false, List.cons_append, List.cons.injEq, true_and]
        exact ih

theorem line_split_no_newline_rest : ∀ (b : List Nat), 10 ∉ (line_split b).2 := by
  intro b
  induction b with
  | nil => simp [line_split]
  | cons c rest ih =>
      simp only [line_split]
      by_cases he : (line_split rest).1.isEmpty = true
      · have hrest : (line_split rest).2 = rest := by
          have h1 := line_split_append rest
          rwa [List.isEmpty_iff.mp he, List.nil_append] at h1
        rw [hrest] at ih
        by_cases hc : c = 10
        · simpa [he, hc] using ih
        · simp only [he, if_true, if_neg hc]
          intro hmem
          rcases List.mem_cons.mp hmem with h0 | h0
          · exact hc h0.symm
          · exact ih h0
      · simpa [he] using ih

theorem line_split_terminator : ∀ (b : List Nat),
    (line_split b).1 ≠ [] → (line_split b).1.getLast? = some 10 := by
  intro b
  induction b with
  | nil => simp [line_split]
  | cons c rest ih =>
      simp only [line_split]
      by_cases he : (line_split rest).1.isEmpty = true
      · by_cases hc : c = 10 <;> simp [he, hc]
      · intro _
        simp only [he, Bool.false_eq_true, if_false]
        have hne : (line_split rest).1 ≠ [] := by
          intro h0
          rw [h0] at he
          simp at he
        rw [List.getLast?_cons, ih hne]
        cases h0 : (line_split rest).1 with
        | nil => exact absurd h0 hne
        | cons a as => simp [List.getLast?_cons]

theorem line_split_nonempty : ∀ (b : List Nat), 10 ∈ b → (line_split b).1 ≠ [] := by
  intro b
  induction b with
  | nil => simp
  | cons c rest ih =>
      intro hmem
      simp only [line_split]
      by_cases he : (line_split rest).1.isEmpty = true
      · by_cases hc : c = 10
        · simp [he, hc]
        · rcases List.mem_cons.mp hmem with h0 | h0
          · exact absurd h0.symm hc
          · exact absurd (List.isEmpty_iff.mp he) (ih h0)
      · simp [he]

/-- C4: with at least one complete (newline-terminated) line buffered,
`flux_subprocess_read_line` returns the longest newline-terminated prefix
of the buffer — the complete lines, terminators included — and leaves the
trailing partial line in the buffer for a later call; nothing is dropped
or merged: returned bytes followed by the remaining buffer reproduce the
original buffer exactly, and the remainder contains no newline. -/
theorem flux_subprocess_read_line_longest (p : flux_subprocess_t) (stream : String)
    (s : StreamState) (hs : find_stream p stream = some s) (hdir : s.direction ≠ .IN)
    (hnl : 10 ∈ s.buf) :
    flux_subprocess_read_line p stream =
      .ok ((line_split s.buf).1,
        update_stream p stream (fun st => { st with buf := (line_split s.buf).2 }))
    ∧ (line_split s.buf).1 ≠ []
    ∧ (line_split s.buf).1.getLast? = some 10
    ∧ (line_split s.buf).1 ++ (line_split s.buf).2 = s.buf
    ∧ 10 ∉ (line_split s.buf).2 := by
  refine ⟨?_, line_split_nonempty s.buf hnl,
    line_split_terminator s.buf (line_split_nonempty s.buf hnl),
    line_split_append s.buf, line_split_no_newline_rest s.buf⟩
  unfold flux_subprocess_read_line
  simp only [hs]
  rw [if_neg hdir]

/-- A buffered TEST_CHANNEL stream holding "bob\ndan\njo": two complete
lines and a trailing partial line (cf. test_channel_multiple_lines,
channel.c:314-357). -/
def stream_lines_example : StreamState :=
  { name := "TEST_CHANNEL", direction := .BIDI,
    buf := [98, 111, 98, 10, 100, 97, 110, 10, 106, 111],
    inQueue := [], eofSeen := false, writeClosed := false }

/-- Controller owning just the buffered TEST_CHANNEL stream. -/
def subprocess_lines_example : flux_subprocess_t :=
  { state := .RUNNING, streams := [stream_lines_example], fds := [], completions := 0 }

/-- Witness for C4 at the "bob\ndan\njo" buffer. -/
theorem flux_subprocess_read_line_longest_witness :
    flux_subprocess_read_line subprocess_lines_example "TEST_CHANNEL" =
      .ok ((line_split stream_lines_example.buf).1,
        update_stream subprocess_lines_example "TEST_CHANNEL"
          (fun st => { st with buf := (line_split stream_lines_example.buf).2 }))
    ∧ (line_split stream_lines_example.buf).1 ≠ []
    ∧ (line_split stream_lines_example.buf).1.getLast? = some 10
    ∧ (line_split stream_lines_example.buf).1 ++ (line_split stream_lines_example.buf).2
        = stream_lines_example.buf
    ∧ 10 ∉ (line_split stream_lines_example.buf).2 :=
  flux_subprocess_read_line_longest subprocess_lines_example "TEST_CHANNEL"
    stream_lines_example (by decide) (by decide) (by decide)

/-- C5: on a stream whose EOF has been observed and whose buffer is
drained, `flux_subprocess_read` returns an empty result — success with
length 0, not an error — and `flux_subprocess_read_stream_closed`
reports true. -/
theorem flux_subprocess_read_eof_empty (p : flux_subprocess_t) (stream : String)
    (s : StreamState) (len : Int) (hs : find_stream p stream = some s)
    (hdir : s.direction ≠ .IN) (heof : s.eofSeen = true) (hbuf : s.buf = []) :
    (∃ p', flux_subprocess_read p stream len = .ok ([], p'))
    ∧ flux_subprocess_read_stream_closed p stream = .ok true := by
  constructor
  · have heq : flux_subprocess_read p stream len =
        .ok ([], update_stream p stream (fun st => { st with buf := st.buf.drop 0 })) := by
      unfold flux_subprocess_read
      simp only [hs]
      rw [if_neg hdir]
      simp [hbuf]
    exact ⟨_, heq⟩
  · unfold flux_subprocess_read_stream_closed
    simp only [hs, heof]

/-- A drained stdout stream whose EOF has been observed
(cf. channel_fd_env_cb's second invocation, channel.c:77-84). -/
def stream_eof_example : StreamState :=
  { name := "stdout", direction := .OUT, buf := [], inQueue := [],
    eofSeen := true, writeClosed := false }

/-- Controller owning just the finished stdout stream. -/
def subprocess_eof_example : flux_subprocess_t :=
  { state := .EXITED, streams := [stream_eof_example], fds := [], completions := 1 }

/-- Witness for C5: an unbounded read (-1) at EOF with a drained buffer. -/
theorem flux_subprocess_read_eof_empty_witness :
    (∃ p', flux_subprocess_read subprocess_eof_example "stdout" (-1) = .ok ([], p'))
    ∧ flux_subprocess_read_stream_closed subprocess_eof_example "stdout" = .ok true :=
  flux_subprocess_read_eof_empty subprocess_eof_example "stdout" stream_eof_example (-1)
    (by decide) (by decide) (by decide) (by decide)

/-- C6: a write to an open IN or BIDI stream accepts every byte: the
returned count equals the input length exactly, with the bytes queued
internally on the child-bound side. -/
theorem flux_subprocess_write_accepts_all (p : flux_subprocess_t) (stream : String)
    (s : StreamState) (data : List Nat) (hs : find_stream p stream = some s)
    (hdir : s.direction ≠ .OUT) (hwc : s.writeClosed = false) :
    flux_subprocess_write p stream data =
      .ok (data.length,
        update_stream p stream (fun st => { st with inQueue := st.inQueue ++ data })) := by
  unfold flux_subprocess_write
  simp only [hs]
  rw [if_neg hdir, if_neg (by simp [hwc])]

/-- The controller returned by spawning the test command with channel
TEST_CHANNEL on the fd table {0,1,2}. -/
def spawn_example : flux_subprocess_t :=
  match flux_local_exec cmd_true_test_channel [0, 1, 2] with
  | (.ok p, _) => p
  | (.error _, _) => { state := .INIT, streams := [], fds := [], completions := 0 }

/-- Witness for C6: writing the 6 bytes "foobar" to TEST_CHANNEL
(cf. channel.c:178-179) returns count 6. -/
theorem flux_subprocess_write_accepts_all_witness :
    flux_subprocess_write spawn_example "TEST_CHANNEL" [102, 111, 111, 98, 97, 114] =
      .ok (6,
        update_stream spawn_example "TEST_CHANNEL"
          (fun st => { st with inQueue := st.inQueue ++ [102, 111, 111, 98, 97, 114] })) :=
  flux_subprocess_write_accepts_all spawn_example "TEST_CHANNEL"
    { name := "TEST_CHANNEL", direction := .BIDI, buf := [], inQueue := [],
      eofSeen := false, writeClosed := false }
    [102, 111, 111, 98, 97, 114] (by decide) (by decide) (by decide)

theorem find?_cons_eq {α : Type} (p : α → Bool) (a : α) (l : List α) :
    (a :: l).find? p = if p a = true then some a else l.find? p := by
  cases h : p a <;> simp [List.find?_cons, h]

theorem find?_update_list (l : List StreamState) (stream : String)
    (f : StreamState → StreamState) (hf : ∀ s, (f s).name = s.name) :
    (l.map (fun s => if s.name == stream then f s else s)).find?
        (fun s => s.name == stream)
      = (l.find? (fun s => s.name == stream)).map f := by
  induction l with
  | nil => simp
  | cons a l ih =>
      by_cases hname : a.name = stream
      · have hb : (a.name == stream) = true := beq_iff_eq.mpr hname
        have hfa : ((f a).name == stream) = true := by rw [hf]; exact hb
        simp only [List.map_cons, find?_cons_eq, hb, hfa, eq_self_iff_true, if_true]
        rfl
      · have hb' : (a.name == stream) = false := by
          cases h0 : a.name == stream with
          | true => exact absurd (beq_iff_eq.mp h0) hname
          | false => rfl
        simp only [List.map_cons, find?_cons_eq, hb', Bool.false_eq_true, if_false]
        exact ih

theorem find_stream_update (p : flux_subprocess_t) (stream : String)
    (f : StreamState → StreamState) (hf : ∀ s, (f s).name = s.name) :
    find_stream (update_stream p stream f) stream = (find_stream p stream).map f :=
  find?_update_list p.streams stream f hf

/-- Modelled from the spec (section 8 and the test's echoing child
test_echo with -C): the child reads its channel input and writes it back
on the same channel with a line terminator appended — writing "foobar"
(6 bytes) yields a read of "foobar\n" (7 bytes). -/
def echo_child (input : List Nat) : List Nat := input ++ [10]

/-- One reactor cycle of the echo scenario (spec section 4.4,
readiness-driven behavior): the queued outbound bytes are written to the
child, whose echoed reply is read back and appended to the stream's
receive buffer. -/
def deliver_echo (p : flux_subprocess_t) (stream : String) : flux_subprocess_t :=
  update_stream p stream
    (fun st => { st with buf := st.buf ++ echo_child st.inQueue, inQueue := [] })

/-- C7: writing N bytes to a fresh open BIDI channel whose child echoes
its input accepts all N bytes, and reading the paired output side after
the echo cycle yields exactly those N bytes followed by the child's line
terminator (round-trip identity modulo the appended terminator). -/
theorem echo_channel_roundtrip (p : flux_subprocess_t) (stream : String)
    (s : StreamState) (payload : List Nat) (hs : find_stream p stream = some s)
    (hdir : s.direction = .BIDI) (hwc : s.writeClosed = false)
    (hq : s.inQueue = []) (hb : s.buf = []) :
    ∃ p1, flux_subprocess_write p stream payload = .ok (payload.length, p1)
      ∧ ∃ p2, flux_subprocess_read (deliver_echo p1 stream) stream (-1)
          = .ok (payload ++ [10], p2) := by
  have hdir' : s.direction ≠ Direction.OUT := by rw [hdir]; decide
  have h1 : flux_subprocess_write p stream payload =
      .ok (payload.length,
        update_stream p stream (fun st => { st with inQueue := st.inQueue ++ payload })) := by
    unfold flux_subprocess_write
    simp only [hs]
    rw [if_neg hdir', if_neg (by simp [hwc])]
  refine ⟨_, h1, ?_⟩
  have hfind1 : find_stream (update_stream p stream
      (fun st => { st with inQueue := st.inQueue ++ payload })) stream
      = some { s with inQueue := s.inQueue ++ payload } := by
    rw [find_stream_update p stream
      (fun st => { st with inQueue := st.inQueue ++ payload }) (fun st => rfl), hs]
    rfl
  have hfind2 : find_stream (deliver_echo (update_stream p stream
      (fun st => { st with inQueue := st.inQueue ++ payload })) stream) stream
      = some { s with buf := payload ++ [10], inQueue := [] } := by
    unfold deliver_echo
    rw [find_stream_update _ stream
      (fun st => { st with buf := st.buf ++ echo_child st.inQueue, inQueue := [] })
      (fun st => rfl), hfind1]
    simp [echo_child, hq, hb]
  have hdir2 : ({ s with buf := payload ++ [10], inQueue := [] } : StreamState).direction
      ≠ Direction.IN := by
    show s.direction ≠ Direction.IN
    rw [hdir]
    decide
  have h2 : flux_subprocess_read (deliver_echo (update_stream p stream
      (fun st => { st with inQueue := st.inQueue ++ payload })) stream) stream (-1)
      = .ok (payload ++ [10],
          update_stream (deliver_echo (update_stream p stream
              (fun st => { st with inQueue := st.inQueue ++ payload })) stream) stream
            (fun st => { st with buf := st.buf.drop (payload ++ [10]).length })) := by
    unfold flux_subprocess_read
    simp only [hfind2]
    rw [if_neg hdir2]
    rw [if_pos (show (-1 : Int) < 0 by decide)]
  exact ⟨_, h2⟩

/-- Witness for C7: the 6 bytes "foobaz" written to TEST_CHANNEL come back
as the 7 bytes "foobaz\n" (cf. test_channel_fd_in_and_out,
channel.c:224-261). -/
theorem echo_channel_roundtrip_witness :
    ∃ p1, flux_subprocess_write spawn_example "TEST_CHANNEL"
        [102, 111, 111, 98, 97, 122] = .ok (6, p1)
      ∧ ∃ p2, flux_subprocess_read (deliver_echo p1 "TEST_CHANNEL") "TEST_CHANNEL" (-1)
          = .ok ([102, 111, 111, 98, 97, 122] ++ [10], p2) :=
  echo_channel_roundtrip spawn_example "TEST_CHANNEL"
    { name := "TEST_CHANNEL", direction := .BIDI, buf := [], inQueue := [],
      eofSeen := false, writeClosed := false }
    [102, 111, 111, 98, 97, 122]
    (by decide) (by decide) (by decide) (by decide) (by decide)

/-! ### Completion ordering (spec sections 4.3 and 5)

The reactor dispatches per-stream data and EOF notifications and the
child-termination notification sequentially on one thread; the engine
fires the completion callback only once the child has been reaped and
every owned stream has reached its terminal EOF state. -/

/-- A reactor dispatch observed by the controller: buffered data arriving
on a stream, EOF observed on a stream, or the child's termination being
reaped. -/
inductive SubprocessEvent where
  | data (stream : String) (bytes : List Nat)
  | eof (stream : String)
  | childExit

/-- Every owned stream has reached its terminal EOF state. -/
def all_eof (p : flux_subprocess_t) : Bool :=
  p.streams.all (fun s => s.eofSeen)

/-- Modelled from the spec (section 4.3): the completion condition — the
child has been reaped (state EXITED or FAILED) and every owned stream has
reached EOF. -/
def completion_due (p : flux_subprocess_t) : Bool :=
  (p.state == .EXITED || p.state == .FAILED) && all_eof p

/-- Fire the completion callback if it is due and has not fired yet
("exactly once"). -/
def maybe_complete (p : flux_subprocess_t) : flux_subprocess_t :=
  if completion_due p && p.completions == 0 then
    { p with completions := p.completions + 1 }
  else p

/-- Modelled from the spec (sections 4.3, 4.4 and 5): one reactor
dispatch.  Data readiness appends to the stream's buffer; a zero-length
read flips the stream's EOF flag; the child-termination watcher reaps the
exit status.  After an EOF or termination notification the engine checks
whether completion is now due. -/
def subprocess_step (p : flux_subprocess_t) : SubprocessEvent → flux_subprocess_t
  | .data stream bytes =>
      update_stream p stream (fun st => { st with buf := st.buf ++ bytes })
  | .eof stream =>
      maybe_complete (update_stream p stream (fun st => { st with eofSeen := true }))
  | .childExit =>
      maybe_complete { p with state := .EXITED }

/-- A whole reactor run: sequential dispatch of a list of events. -/
def subprocess_run (p : flux_subprocess_t) (events : List SubprocessEvent) :
    flux_subprocess_t :=
  events.foldl subprocess_step p

theorem all_eof_update_buf (p : flux_subprocess_t) (stream : String) (bytes : List Nat) :
    all_eof (update_stream p stream (fun st => { st with buf := st.buf ++ bytes }))
      = all_eof p := by
  unfold all_eof update_stream
  rw [List.all_map]
  congr 1
  funext st
  by_cases h : (st.name == stream) = true <;> simp [Function.comp, h]

theorem all_eof_update_eof_mono (p : flux_subprocess_t) (stream : String)
    (h : all_eof p = true) :
    all_eof (update_stream p stream (fun st => { st with eofSeen := true })) = true := by
  unfold all_eof update_stream at *
  rw [List.all_map]
  rw [List.all_eq_true] at h ⊢
  intro st hst
  have := h st hst
  by_cases hn : (st.name == stream) = true <;> simp [Function.comp, hn] <;> exact this

theorem completion_due_update_buf (p : flux_subprocess_t) (stream : String)
    (bytes : List Nat) :
    completion_due (update_stream p stream (fun st => { st with buf := st.buf ++ bytes }))
      = completion_due p := by
  unfold completion_due
  rw [all_eof_update_buf]
  rfl

theorem maybe_complete_inv (p q : flux_subprocess_t)
    (hcomp : q.completions = p.completions)
    (hmono : completion_due p = true → completion_due q = true)
    (h : p.completions = if completion_due p = true then 1 else 0) :
    (maybe_complete q).completions
      = if completion_due (maybe_complete q) = true then 1 else 0 := by
  have hdue_mc : completion_due (maybe_complete q) = completion_due q := by
    unfold maybe_complete
    split <;> rfl
  rw [hdue_mc]
  unfold maybe_complete
  by_cases hdq : completion_due q = true
  · by_cases hc : p.completions = 0
    · rw [if_pos (by simp [hdq, hcomp, hc])]
      simp [hdq, hcomp, hc]
    · have hdp : completion_due p = true := by
        by_contra hf
        rw [if_neg hf] at h
        exact hc h
      have h1 : p.completions = 1 := by rw [h, if_pos hdp]
      rw [if_neg (by simp [hdq, hcomp, h1])]
      simp [hdq, hcomp, h1]
  · have hdp : completion_due p ≠ true := fun hd => hdq (hmono hd)
    have h0 : p.completions = 0 := by rw [h, if_neg hdp]
    rw [if_neg (by simp [hdq])]
    simp [hdq, hcomp, h0]

theorem subprocess_step_inv (p : flux_subprocess_t) (e : SubprocessEvent)
    (h : p.completions = if completion_due p = true then 1 else 0) :
    (subprocess_step p e).completions
      = if completion_due (subprocess_step p e) = true then 1 else 0 := by
  cases e with
  | data stream bytes =>
      show (update_stream p stream _).completions
        = if completion_due (update_stream p stream _) = true then 1 else 0
      rw [completion_due_update_buf]
      exact h
  | eof stream =>
      show (maybe_complete
          (update_stream p stream (fun st => { st with eofSeen := true }))).completions
        = if completion_due (maybe_complete
            (update_stream p stream (fun st => { st with eofSeen := true }))) = true
          then 1 else 0
      apply maybe_complete_inv p
        (update_stream p stream (fun st => { st with eofSeen := true })) rfl ?_ h
      intro hd
      unfold completion_due at hd ⊢
      rw [Bool.and_eq_true] at hd ⊢
      exact ⟨hd.1, all_eof_update_eof_mono p stream hd.2⟩
  | childExit =>
      show (maybe_complete { p with state := .EXITED }).completions
        = if completion_due (maybe_complete { p with state := .EXITED }) = true
          then 1 else 0
      apply maybe_complete_inv p { p with state := .EXITED } rfl ?_ h
      intro hd
      unfold completion_due at hd ⊢
      rw [Bool.and_eq_true] at hd ⊢
      exact ⟨by simp, hd.2⟩

theorem subprocess_run_inv (p : flux_subprocess_t) (events : List SubprocessEvent)
    (h : p.completions = if completion_due p = true then 1 else 0) :
    (subprocess_run p events).completions
      = if completion_due (subprocess_run p events) = true then 1 else 0 := by
  induction events generalizing p with
  | nil => exact h
  | cons e es ih => exact ih (subprocess_step p e) (subprocess_step_inv p e h)

/-- C1: for a freshly spawned controller and every reactor dispatch
trace, the completion callback count equals 1 exactly when the child's
termination has been reaped and every owned stream — the three standard
streams and every named channel — has reached its terminal EOF state, and
0 otherwise.  Hence completion fires exactly once per controller, never a
second time, and never while any stream's EOF is still unobserved; since
per-stream dispatch delivers buffered data before the EOF flag flips
(spec section 5 ordering), all-EOF also means all data was made available
to the caller. -/
theorem completion_exactly_once_after_eof (cmd : flux_cmd_t) (t : List Nat)
    (p0 : flux_subprocess_t) (events : List SubprocessEvent)
    (hspawn : (flux_local_exec cmd t).1 = .ok p0) :
    (subprocess_run p0 events).completions
      = if completion_due (subprocess_run p0 events) = true then 1 else 0 := by
  apply subprocess_run_inv
  unfold flux_local_exec at hspawn
  by_cases h : cmd_opts_valid cmd = false
  · rw [if_pos h] at hspawn
    simp at hspawn
  · rw [if_neg h] at hspawn
    simp only [Except.ok.injEq] at hspawn
    rw [← hspawn]
    simp [completion_due]

/-- Witness for C1: the spawned test controller, a trace delivering data
on stdout, EOF on all four streams, and the child's exit. -/
theorem completion_exactly_once_after_eof_witness :
    (subprocess_run spawn_example
        [.data "stdout" [70, 79, 79], .eof "stdin", .eof "stdout", .eof "stderr",
         .eof "TEST_CHANNEL", .childExit]).completions
      = if completion_due (subprocess_run spawn_example
          [.data "stdout" [70, 79, 79], .eof "stdin", .eof "stdout", .eof "stderr",
           .eof "TEST_CHANNEL", .childExit]) = true then 1 else 0 :=
  completion_exactly_once_after_eof cmd_true_test_channel [0, 1, 2] spawn_example
    [.data "stdout" [70, 79, 79], .eof "stdin", .eof "stdout", .eof "stderr",
     .eof "TEST_CHANNEL", .childExit]
    (by rfl)
